import Mathlib

/-!
Verification development for the photo-organiser pipeline
(`photo_organiser.py`): a shallow embedding of the date-inference chain,
the deduplicating organiser pass, and the face-cluster grouping model,
together with theorems about the claims of the specification.

Paths are modelled over ASCII characters; the platform path separator
`os.sep` is the POSIX `/`.
-/

namespace PhotoOrganiser

/-! ### Character classes (ASCII models of the Python predicates) -/

/-- ASCII model of the regex class `\d` and of `str.isdigit` per character. -/
def isDigitChar (c : Char) : Bool := 48 ≤ c.toNat && c.toNat ≤ 57

/-- ASCII model of `[a-zA-Z]`, the characters matched by `[a-z]*` under
`re.IGNORECASE`. -/
def isLetterChar (c : Char) : Bool :=
  (97 ≤ c.toNat && c.toNat ≤ 122) || (65 ≤ c.toNat && c.toNat ≤ 90)

/-- ASCII model of the regex class `\s`. -/
def isSpaceChar (c : Char) : Bool :=
  c.toNat = 32 || c.toNat = 9 || c.toNat = 10 || c.toNat = 13 || c.toNat = 12 || c.toNat = 11

/-- The separator class `(?:-|_|\s)` of the bare-year pattern. -/
def isSepChar (c : Char) : Bool := c = '-' || c = '_' || isSpaceChar c

/-- ASCII model of `str.lower` per character. -/
def toLowerChar (c : Char) : Char :=
  if 65 ≤ c.toNat && c.toNat ≤ 90 then Char.ofNat (c.toNat + 32) else c

/-- ASCII model of `str.lower`. -/
def lowerStr (s : List Char) : List Char := s.map toLowerChar

/-- `startsWithSeq needle hay` holds when `needle` is an initial run of `hay`. -/
def startsWithSeq : List Char → List Char → Bool
  | [], _ => true
  | _ :: _, [] => false
  | a :: as, b :: bs => a == b && startsWithSeq as bs

/-- Model of the Python substring test `needle in hay`. -/
def hasSub (needle : List Char) : List Char → Bool
  | [] => needle.isEmpty
  | c :: t => startsWithSeq needle (c :: t) || hasSub needle t

/-- Model of `str.split(sep)` for a one-character separator; this is how
`path.split(os.sep)` cuts a path into segments. -/
def splitSep (sep : Char) : List Char → List (List Char)
  | [] => [[]]
  | c :: t =>
    if c = sep then [] :: splitSep sep t
    else
      match splitSep sep t with
      | [] => [[c]]
      | h :: r => (c :: h) :: r

/-- Numeric value of a digit string, as computed by Python `int` on an
all-digit string. -/
def digitsVal (s : List Char) : ℕ := s.foldl (fun n c => n * 10 + (c.toNat - 48)) 0

/-- Model of `str.isdigit`: nonempty and all digits. -/
def isPyDigits (s : List Char) : Bool := !s.isEmpty && s.all isDigitChar

/-- Model of Python `int(s)` on the group strings produced by the regexes:
succeeds exactly on nonempty all-digit strings, and raising `ValueError`
is modelled by `none`. -/
def pyNat? (s : List Char) : Option ℕ :=
  if isPyDigits s then some (digitsVal s) else none

/-! ### Dates -/

/-- A value of Python's `datetime` restricted to its date part (the code
only ever constructs midnight datetimes from path inference). -/
structure PyDate where
  year : ℕ
  month : ℕ
  day : ℕ
deriving DecidableEq, Repr

/-- Gregorian leap-year rule used by `datetime`. -/
def isLeapYear (y : ℕ) : Bool := (y % 4 = 0 && y % 100 ≠ 0) || y % 400 = 0

/-- Number of days in a month, as validated by the `datetime` constructor. -/
def daysInMonth (y m : ℕ) : ℕ :=
  if m = 2 then (if isLeapYear y then 29 else 28)
  else if m = 4 || m = 6 || m = 9 || m = 11 then 30
  else 31

/-- Model of the `datetime(year, month, day)` constructor: a raised
`ValueError` on out-of-range arguments is modelled by `none`. -/
def datetime? (y m d : ℕ) : Option PyDate :=
  if 1 ≤ y ∧ y ≤ 9999 ∧ 1 ≤ m ∧ m ≤ 12 ∧ 1 ≤ d ∧ d ≤ daysInMonth y m then
    some ⟨y, m, d⟩
  else none

/-! ### `month_str_to_int` -/

/-- The twelve lowercase month abbreviations of `month_str_to_int`,
in source order. -/
def months : List (List Char) :=
  ["jan", "feb", "mar", "apr", "may", "jun",
   "jul", "aug", "sep", "oct", "nov", "dec"].map String.data

/-- Embedding of `month_str_to_int`: lowercase the argument, return the
1-based index of the first month abbreviation occurring as a substring;
the raised `ValueError` when none occurs is modelled by `none`. -/
def month_str_to_int (s : List Char) : Option ℕ :=
  let sl := lowerStr s
  (List.range 12).findSome? (fun i =>
    if hasSub (months.getD i []) sl then some (i + 1) else none)

/-! ### The four regex searches of `infer_date_from_path`

Each `searchPk` embeds `re.search(pattern_k, part, re.IGNORECASE)` on one
path segment, returning `(groups, group0)` of the leftmost match. -/

/-- Attempt pattern 1, `(\d{4})[/\\](\d{1,2})`, anchored at the start of
`s`; the 1–2 digit month group is greedy. -/
def matchP1At (s : List Char) : Option (List (List Char) × List Char) :=
  match s with
  | a :: b :: c :: d :: sep :: rest =>
    if isDigitChar a && isDigitChar b && isDigitChar c && isDigitChar d
        && (sep = '/' || sep = '\\') then
      match rest with
      | e :: f :: _ =>
        if isDigitChar e then
          if isDigitChar f then some ([[a,b,c,d], [e,f]], [a,b,c,d,sep,e,f])
          else some ([[a,b,c,d], [e]], [a,b,c,d,sep,e])
        else none
      | [e] => if isDigitChar e then some ([[a,b,c,d], [e]], [a,b,c,d,sep,e]) else none
      | [] => none
    else none
  | _ => none

/-- Leftmost search for pattern 1. -/
def searchP1 : List Char → Option (List (List Char) × List Char)
  | [] => none
  | c :: t => matchP1At (c :: t) <|> searchP1 t

/-- Attempt pattern 2, `(Jan|Feb|…|Dec)[a-z]*` under `re.IGNORECASE`,
anchored at the start of `s`. -/
def matchP2At (s : List Char) : Option (List (List Char) × List Char) :=
  match s with
  | a :: b :: c :: rest =>
    if [toLowerChar a, toLowerChar b, toLowerChar c] ∈ months then
      some ([[a,b,c]], [a,b,c] ++ rest.takeWhile isLetterChar)
    else none
  | _ => none

/-- Leftmost search for pattern 2. -/
def searchP2 : List Char → Option (List (List Char) × List Char)
  | [] => none
  | c :: t => matchP2At (c :: t) <|> searchP2 t

/-- Attempt pattern 3, `(\d{2})/(\d{2})/(\d{4})`, anchored at the start
of `s`. -/
def matchP3At (s : List Char) : Option (List (List Char) × List Char) :=
  match s with
  | a :: b :: s1 :: c :: d :: s2 :: e :: f :: g :: h :: _ =>
    if isDigitChar a && isDigitChar b && s1 = '/' && isDigitChar c && isDigitChar d
        && s2 = '/' && isDigitChar e && isDigitChar f && isDigitChar g && isDigitChar h then
      some ([[a,b], [c,d], [e,f,g,h]], [a,b,s1,c,d,s2,e,f,g,h])
    else none
  | _ => none

/-- Leftmost search for pattern 3. -/
def searchP3 : List Char → Option (List (List Char) × List Char)
  | [] => none
  | c :: t => matchP3At (c :: t) <|> searchP3 t

/-- Four characters form a match of the year alternation
`19[8-9]\d|20[0-2]\d`. -/
def p4YearCond (a b c d : Char) : Prop :=
  ((a = '1' ∧ b = '9' ∧ (c = '8' ∨ c = '9')) ∨
   (a = '2' ∧ b = '0' ∧ (c = '0' ∨ c = '1' ∨ c = '2'))) ∧ isDigitChar d = true

instance (a b c d : Char) : Decidable (p4YearCond a b c d) :=
  show Decidable (((a = '1' ∧ b = '9' ∧ (c = '8' ∨ c = '9')) ∨
    (a = '2' ∧ b = '0' ∧ (c = '0' ∨ c = '1' ∨ c = '2'))) ∧ isDigitChar d = true) from
  inferInstance

/-- The year alternation `19[8-9]\d|20[0-2]\d`: match at the start of `s`,
returning the four year characters and the remaining input. -/
def yearAlt : List Char → Option (List Char × List Char)
  | a :: b :: c :: d :: rest =>
    if p4YearCond a b c d then some ([a,b,c,d], rest) else none
  | _ => none

/-- The trailing `(?:-|_|\s)?(?!\d)` of pattern 4 succeeds on `rest`:
if the next character is a separator the optional group may consume it and
otherwise backtracks onto it, so the whole tail fails only when a digit
follows directly. -/
def p4Trail (rest : List Char) : Bool :=
  match rest with
  | [] => true
  | c :: _ => isSepChar c || !isDigitChar c

/-- The characters consumed by the trailing `(?:-|_|\s)?` under greedy
matching with backtracking, used only for `group(0)`. -/
def p4TrailTaken (rest : List Char) : List Char :=
  match rest with
  | c :: t =>
    if isSepChar c && (match t with | [] => true | d :: _ => !isDigitChar d) then [c] else []
  | [] => []

/-- Attempt pattern 4,
`(?<!\d)(?:-|_|\s)?(19[8-9]\d|20[0-2]\d)(?:-|_|\s)?(?!\d)`, anchored at a
position whose preceding character is `prev` (`none` at the start of the
segment); the lookbehind rejects a preceding digit. -/
def matchP4At (prev : Option Char) (s : List Char) : Option (List (List Char) × List Char) :=
  if (prev.map isDigitChar).getD false then none
  else
    (match s with
     | c :: t =>
       if isSepChar c then
         match yearAlt t with
         | some (g1, rest) =>
           if p4Trail rest then some ([g1], c :: (g1 ++ p4TrailTaken rest)) else none
         | none => none
       else none
     | [] => none)
    <|>
    (match yearAlt s with
     | some (g1, rest) => if p4Trail rest then some ([g1], g1 ++ p4TrailTaken rest) else none
     | none => none)

/-- Leftmost search for pattern 4, threading the previous character for
the lookbehind. -/
def searchP4Aux (prev : Option Char) : List Char → Option (List (List Char) × List Char)
  | [] => none
  | c :: t => matchP4At prev (c :: t) <|> searchP4Aux (some c) t

/-- Leftmost search for pattern 4. -/
def searchP4 (s : List Char) : Option (List (List Char) × List Char) := searchP4Aux none s

/-! ### The shared dispatch body of `infer_date_from_path` -/

/-- Embedding of the `try` body run on a successful match: the `if/elif`
chain over the group count, with every raised exception (from `int`,
`month_str_to_int` or `datetime`) modelled as `none`, which sends the
loop on to the next pattern exactly as `continue` does. -/
def runBody (gs : List (List Char)) (g0 : List Char) : Option PyDate :=
  if gs.length = 2 ∧ isPyDigits (gs.headD []) = true then
    match pyNat? (gs.headD []), month_str_to_int (gs.getD 1 []) with
    | some y, some m => datetime? y m 1
    | _, _ => none
  else if gs.length = 3 then
    match pyNat? (gs.getD 0 []), pyNat? (gs.getD 1 []), pyNat? (gs.getD 2 []) with
    | some d, some m, some y => datetime? y m d
    | _, _, _ => none
  else if gs.length = 1 then
    match pyNat? (gs.headD []) with
    | some y => if 1988 ≤ y ∧ y ≤ 2025 then datetime? y 1 1 else none
    | none => none
  else if ¬ (gs.headD []).isEmpty then
    match month_str_to_int g0 with
    | some m => datetime? 2000 m 1
    | none => none
  else none

/-- Result of trying one pattern on one segment: search, then on a match
run the dispatch body; `none` moves on to the next pattern. -/
def patternDate (search : List Char → Option (List (List Char) × List Char))
    (part : List Char) : Option PyDate :=
  match search part with
  | some (gs, g0) => runBody gs g0
  | none => none

/-- All four patterns tried in priority order on one segment. -/
def segmentDate (part : List Char) : Option PyDate :=
  patternDate searchP1 part <|> patternDate searchP2 part <|>
  patternDate searchP3 part <|> patternDate searchP4 part

/-- Embedding of `infer_date_from_path`: split the path on `os.sep` and
return the first date any segment yields. -/
def infer_date_from_path (path : String) : Option PyDate :=
  (splitSep '/' path.data).findSome? segmentDate

/-! ### The organiser pass `organise_photos`

The surrounding I/O is modelled at its boundary: each input image carries
the results of its `generate_image_hash` and `get_image_date` calls and a
flag telling whether `shutil.copy2` would succeed on it, and the
filesystem is the set of destination paths that exist. -/

/-- One input image as seen by the loop of `organise_photos`. -/
structure Img where
  /-- The path produced by `get_all_images`. -/
  path : String
  /-- Result of `generate_image_hash`: `none` models an unreadable image. -/
  hash : Option ℕ
  /-- Result of `get_image_date` (EXIF metadata), already parsed. -/
  exifDate : Option PyDate
  /-- Whether `shutil.copy2` succeeds when attempted on this image. -/
  copyOk : Bool
deriving DecidableEq, Repr

/-- The `stats` dictionary of `organise_photos`. -/
structure Stats where
  total_files : ℕ
  deduplicated : ℕ
  copied : ℕ
  unknown_date : ℕ
deriving DecidableEq, Repr

/-- One entry of `photo_manifest` (and of the saved `photo_index.json`). -/
structure ManifestEntry where
  source : String
  destination : String
  date_taken : Option PyDate
  locations : List String
deriving DecidableEq, Repr

/-- The mutable state of one `organise_photos` run. `copy_failed` and
`skipped_existing` are ghost history counters with no counterpart in the
source: they count the images whose copy raised and the images skipped
because the destination already existed, so that statements about those
classes of images can be made; they influence nothing. -/
structure OrgState where
  seen_hashes : List (Option ℕ)
  stats : Stats
  photo_manifest : List ManifestEntry
  fs : List String
  copy_failed : ℕ
  skipped_existing : ℕ
deriving DecidableEq, Repr

/-- Whether a string starts with the path separator. -/
def headIsSlash (s : String) : Bool :=
  match s.data with | c :: _ => c = '/' | [] => false

/-- Whether a string ends with the path separator. -/
def lastIsSlash (s : String) : Bool :=
  match s.data.getLast? with | some c => c = '/' | none => false

/-- Model of POSIX `os.path.join` on two components. -/
def path_join (a b : String) : String :=
  if headIsSlash b then b
  else if a = "" then a ++ b
  else if lastIsSlash a then a ++ b
  else a ++ "/" ++ b

/-- Model of `os.path.basename`. -/
def basename (p : String) : String :=
  match (splitSep '/' p.data).getLast? with
  | some l => String.mk l
  | none => ""

/-- The event keyword alternation of the organiser. -/
def event_keywords : List String :=
  ["wedding", "holiday", "birthday", "party", "graduation", "honeymoon", "trip"]

/-- `re.search(r"wedding|holiday|…|trip", part, re.IGNORECASE)` succeeds
on a segment exactly when some keyword occurs case-insensitively. -/
def hasEventKeyword (part : List Char) : Bool :=
  event_keywords.any (fun k => hasSub k.data (lowerStr part))

/-- The event-label scan: the first path segment containing a keyword. -/
def find_event_label (path : String) : Option String :=
  ((splitSep '/' path.data).find? hasEventKeyword).map String.mk

/-- The location gazetteer of `extract_location_keywords`. -/
def common_locations : List String :=
  ["paris", "london", "tokyo", "new york", "cork", "dublin", "rome", "berlin"]

/-- Embedding of `extract_location_keywords`. -/
def extract_location_keywords (path : String) : List String :=
  common_locations.filter (fun k => hasSub k.data (lowerStr path.data))

/-- The zero-padded month of the f-string `f"{month:02d}"`. -/
def pad_month (m : ℕ) : String := if m < 10 then "0" ++ toString m else toString m

/-- The destination directory `output_folder/year/month[/event_label]`
computed for a dated image. -/
def dest_dir (output_folder path : String) (d : PyDate) : String :=
  let base := path_join (path_join output_folder (toString d.year)) (pad_month d.month)
  match find_event_label path with
  | some ev => path_join base ev
  | none => base

/-- The destination file path of a dated image. -/
def destination_of (output_folder path : String) (d : PyDate) : String :=
  path_join (dest_dir output_folder path d) (basename path)

/-- The loop body after the dedup gate: resolve a date, compute the
destination, skip existing destinations, copy, and append the manifest
entry. The EXIF write-back after the copy does not alter this state. -/
def after_dedup (output_folder : String) (st : OrgState) (img : Img) : OrgState :=
  match img.exifDate <|> infer_date_from_path img.path with
  | none => { st with stats := { st.stats with unknown_date := st.stats.unknown_date + 1 } }
  | some d =>
    let destination := destination_of output_folder img.path d
    if destination ∈ st.fs then
      { st with skipped_existing := st.skipped_existing + 1 }
    else if img.copyOk then
      { st with
        stats := { st.stats with copied := st.stats.copied + 1 },
        fs := destination :: st.fs,
        photo_manifest := st.photo_manifest ++
          [⟨img.path, destination, some d, extract_location_keywords img.path⟩] }
    else
      { st with copy_failed := st.copy_failed + 1 }

/-- One iteration of the loop of `organise_photos`: count the file, test
the fingerprint against `seen_hashes` (a `None` fingerprint is falsy and
never deduplicated), record the fingerprint, and continue past the gate. -/
def process_image (output_folder : String) (st : OrgState) (img : Img) : OrgState :=
  let st1 := { st with stats := { st.stats with total_files := st.stats.total_files + 1 } }
  match img.hash with
  | some h =>
    if some h ∈ st1.seen_hashes then
      { st1 with stats := { st1.stats with deduplicated := st1.stats.deduplicated + 1 } }
    else
      after_dedup output_folder { st1 with seen_hashes := some h :: st1.seen_hashes } img
  | none => after_dedup output_folder { st1 with seen_hashes := none :: st1.seen_hashes } img

/-- Run the organiser loop from an arbitrary state. -/
def run_from (output_folder : String) (st : OrgState) (images : List Img) : OrgState :=
  images.foldl (process_image output_folder) st

/-- The initial state of a run over a filesystem `fs0`. -/
def init_state (fs0 : List String) : OrgState := ⟨[], ⟨0, 0, 0, 0⟩, [], fs0, 0, 0⟩

/-- Embedding of `organise_photos`: fold the loop body over the
enumerated images. The returned state carries the final `stats`, the
`photo_manifest` that `save_json` then writes wholesale to
`photo_index.json`, and the filesystem contents. -/
def organise_photos (output_folder : String) (images : List Img) (fs0 : List String) : OrgState :=
  run_from output_folder (init_state fs0) images

/-- Sum of the four disposition counters other than `copied`-style
success… namely every way one non-total counter can account for an image:
duplicates, copies, unknown dates, failed copies, and existing-destination
skips. -/
def dispositions (st : OrgState) : ℕ :=
  st.stats.deduplicated + st.stats.copied + st.stats.unknown_date +
    st.copy_failed + st.skipped_existing

/-- The image of the C3 counterexample: its destination below `"out"`
already exists, so the run counts it in no counter but `total_files`. -/
def skipImg : Img := ⟨"a/1999/x.jpg", some 1, none, true⟩

/-- The run of the C3 counterexample. -/
def skipRun : OrgState := organise_photos "out" [skipImg] ["out/1999/01/x.jpg"]

/-- Two unreadable (null-fingerprint) images whose dates are inferable
from their paths; both reach the manifest. -/
def nullImgs : List Img :=
  [⟨"e/1999/a.jpg", none, none, true⟩, ⟨"e/1999/b.jpg", none, none, true⟩]

/-- The run of the C4 counterexample. -/
def nullRun : OrgState := organise_photos "out" nullImgs []

/-- An image whose path carries both an event keyword and an inferable
year, used to exhibit a manifest entry with an event-label segment. -/
def eventImg : Img := ⟨"trip/1999/a.jpg", some 1, none, true⟩

/-- The run placing `eventImg`. -/
def eventRun : OrgState := organise_photos "out" [eventImg] []

/-- The manifest entry `eventRun` produces. -/
def eventEntry : ManifestEntry :=
  ⟨"trip/1999/a.jpg", "out/1999/01/trip/a.jpg", some ⟨1999, 1, 1⟩, []⟩

/-- The non-null distinct fingerprints observed over an input list. -/
def distinct_fingerprints (imgs : List Img) : ℕ := (imgs.filterMap Img.hash).dedup.length

/-- The number of images whose fingerprint computation failed. -/
def null_fingerprints (imgs : List Img) : ℕ :=
  (imgs.filter (fun i => i.hash = none)).length

/-- The distinct non-null fingerprints of `imgs` that are not yet in the
seen-set: the number of fresh manifest slots the remaining images can
still open besides the null-fingerprint ones. -/
def unseen_distinct (seen : List (Option ℕ)) (imgs : List Img) : ℕ :=
  ((imgs.filterMap Img.hash).dedup.filter (fun h => decide (some h ∉ seen))).length

/-- Two images with the same non-null fingerprint, for the first-seen-wins
witness. -/
def dupImgs : List Img :=
  [⟨"p/1999/a.jpg", some 5, none, true⟩, ⟨"p/1999/b.jpg", some 5, none, true⟩]

/-! ### Face clustering (C9)

`cluster_faces` collects the face embeddings of all images into one batch
and runs `DBSCAN(metric='euclidean', eps=tolerance, min_samples=1)` over
it. DBSCAN itself is sklearn library code, not part of this repository,
so its grouping behaviour is modelled from the specification.
Embeddings are real vectors; they are modelled over `ℚ`, and closeness
under Euclidean distance is expressed on squared distances. -/

/-- Squared Euclidean distance between two embedding vectors. -/
def sqDist (a b : List ℚ) : ℚ :=
  (List.zipWith (fun x y => (x - y) * (x - y)) a b).sum

/-- Modelled from the spec: the missing piece is sklearn's
`DBSCAN(metric='euclidean', eps=tolerance, min_samples=1)` that
`cluster_faces` calls. §4.5 prescribes density-based clustering with
fixed neighbourhood radius `tolerance` under Euclidean distance: `near`
is that neighbourhood relation, membership within distance `tol`. -/
def near (tol : ℚ) (a b : List ℚ) : Prop := sqDist a b ≤ tol * tol

/-- Modelled from the spec: one step of the transitive joining of the
glossary ("points are joined transitively through chains of near
neighbors"), between members of the clustering batch. -/
def clusterStep (tol : ℚ) (pts : List (List ℚ)) (a b : List ℚ) : Prop :=
  a ∈ pts ∧ b ∈ pts ∧ near tol a b

/-- Modelled from the spec: with `min_samples = 1` every point is a core
point and there is no noise category, so two embeddings receive the same
cluster label exactly when a chain of near batch points joins them. -/
def sameCluster (tol : ℚ) (pts : List (List ℚ)) (a b : List ℚ) : Prop :=
  Relation.ReflTransGen (clusterStep tol pts) a b

/-- A bridging chain between `a` and `b`: intermediate batch points whose
consecutive members (including the endpoints) are near. -/
def BridgedBy (tol : ℚ) (pts : List (List ℚ)) (a b : List ℚ)
    (chain : List (List ℚ)) : Prop :=
  (∀ p ∈ chain, p ∈ pts) ∧ List.Chain (near tol) a (chain ++ [b])

/-- The dedup gate taken by `process_image`: a non-null fingerprint that
was already seen. -/
def isDupStep (st : OrgState) (img : Img) : Prop :=
  match img.hash with
  | some h => some h ∈ st.seen_hashes
  | none => False

instance (st : OrgState) (img : Img) : Decidable (isDupStep st img) := by
  unfold isDupStep
  cases img.hash with
  | some h => exact inferInstance
  | none => exact inferInstance

/-- The deterministic evolution of `seen_hashes` in one loop iteration. -/
def next_seen (seen : List (Option ℕ)) (img : Img) : List (Option ℕ) :=
  match img.hash with
  | some h => if some h ∈ seen then seen else some h :: seen
  | none => none :: seen

/-- The shape every manifest entry produced for output root `o` has:
a present capture date and a destination
`o/year/zero-padded-month[/event-label]/basename(source)`. -/
def EntryShape (o : String) (e : ManifestEntry) : Prop :=
  ∃ d, e.date_taken = some d ∧
    ((find_event_label e.source = none ∧
       e.destination =
         path_join (path_join (path_join o (toString d.year)) (pad_month d.month))
           (basename e.source)) ∨
     (∃ ev, find_event_label e.source = some ev ∧
       e.destination =
         path_join (path_join (path_join (path_join o (toString d.year)) (pad_month d.month)) ev)
           (basename e.source)))

/-! ## Frame lemmas for the organiser step -/

lemma after_dedup_frame (o : String) (st : OrgState) (img : Img) :
    (after_dedup o st img).stats.total_files = st.stats.total_files ∧
    (after_dedup o st img).stats.deduplicated = st.stats.deduplicated ∧
    (after_dedup o st img).seen_hashes = st.seen_hashes := by
  unfold after_dedup
  split
  · exact ⟨rfl, rfl, rfl⟩
  · dsimp only
    split
    · exact ⟨rfl, rfl, rfl⟩
    · split <;> exact ⟨rfl, rfl, rfl⟩

lemma process_image_total (o : String) (st : OrgState) (img : Img) :
    (process_image o st img).stats.total_files = st.stats.total_files + 1 := by
  unfold process_image
  cases img.hash with
  | none => exact (after_dedup_frame o _ img).1
  | some h =>
    dsimp only
    split
    · rfl
    · exact (after_dedup_frame o _ img).1

lemma after_dedup_dispositions (o : String) (st : OrgState) (img : Img) :
    dispositions (after_dedup o st img) = dispositions st + 1 := by
  unfold after_dedup dispositions
  split
  · dsimp only; omega
  · dsimp only
    split
    · dsimp only; omega
    · split <;> (dsimp only; omega)

lemma process_image_dispositions (o : String) (st : OrgState) (img : Img) :
    dispositions (process_image o st img) = dispositions st + 1 := by
  unfold process_image
  cases img.hash with
  | none => exact after_dedup_dispositions o _ img
  | some h =>
    dsimp only
    split
    · unfold dispositions; dsimp only; omega
    · exact after_dedup_dispositions o _ img

lemma run_from_total (o : String) : ∀ (imgs : List Img) (st : OrgState),
    (run_from o st imgs).stats.total_files = st.stats.total_files + imgs.length := by
  intro imgs
  induction imgs with
  | nil => intro st; rfl
  | cons img rest ih =>
    intro st
    show (run_from o (process_image o st img) rest).stats.total_files = _
    rw [ih, process_image_total]
    simp [List.length_cons]
    omega

lemma run_from_dispositions (o : String) : ∀ (imgs : List Img) (st : OrgState),
    dispositions (run_from o st imgs) = dispositions st + imgs.length := by
  intro imgs
  induction imgs with
  | nil => intro st; rfl
  | cons img rest ih =>
    intro st
    show dispositions (run_from o (process_image o st img) rest) = _
    rw [ih, process_image_dispositions]
    simp [List.length_cons]
    omega

lemma run_from_cons (o : String) (st : OrgState) (img : Img) (rest : List Img) :
    run_from o st (img :: rest) = run_from o (process_image o st img) rest := rfl

/-- Branch equation: a duplicate image only bumps `total_files` and
`deduplicated`. -/
lemma process_image_of_dup (o : String) (st : OrgState) (img : Img)
    (h : isDupStep st img) :
    process_image o st img =
      { st with stats :=
          { st.stats with
            total_files := st.stats.total_files + 1
            deduplicated := st.stats.deduplicated + 1 } } := by
  unfold isDupStep at h
  unfold process_image
  cases hh : img.hash with
  | none => simp only [hh] at h
  | some hv =>
    simp only [hh] at h ⊢
    rw [if_pos h]

/-- Branch equation: a non-duplicate image records its fingerprint and
runs the body after the gate. -/
lemma process_image_of_not_dup (o : String) (st : OrgState) (img : Img)
    (h : ¬ isDupStep st img) :
    process_image o st img =
      after_dedup o
        { st with
          seen_hashes := img.hash :: st.seen_hashes
          stats := { st.stats with total_files := st.stats.total_files + 1 } } img := by
  unfold isDupStep at h
  unfold process_image
  cases hh : img.hash with
  | none => simp only [hh]
  | some hv =>
    simp only [hh] at h ⊢
    rw [if_neg h]

/-- Branch equation: an already-existing destination bumps only the ghost
skip counter. -/
lemma after_dedup_of_existing (o : String) (st : OrgState) (img : Img) (d : PyDate)
    (hd : (img.exifDate <|> infer_date_from_path img.path) = some d)
    (hmem : destination_of o img.path d ∈ st.fs) :
    after_dedup o st img = { st with skipped_existing := st.skipped_existing + 1 } := by
  unfold after_dedup
  rw [hd]
  dsimp only
  rw [if_pos hmem]

/-- Branch equation: a successful copy bumps `copied`, adds the file, and
appends the manifest entry. -/
lemma after_dedup_of_copy (o : String) (st : OrgState) (img : Img) (d : PyDate)
    (hd : (img.exifDate <|> infer_date_from_path img.path) = some d)
    (hmem : destination_of o img.path d ∉ st.fs) (hcp : img.copyOk = true) :
    after_dedup o st img =
      { st with
        stats := { st.stats with copied := st.stats.copied + 1 }
        fs := destination_of o img.path d :: st.fs
        photo_manifest := st.photo_manifest ++
          [⟨img.path, destination_of o img.path d, some d,
            extract_location_keywords img.path⟩] } := by
  unfold after_dedup
  rw [hd]
  dsimp only
  rw [if_neg hmem, hcp]
  rfl

/-- Branch equation: a failed copy bumps only the ghost failure counter. -/
lemma after_dedup_of_fail (o : String) (st : OrgState) (img : Img) (d : PyDate)
    (hd : (img.exifDate <|> infer_date_from_path img.path) = some d)
    (hmem : destination_of o img.path d ∉ st.fs) (hcp : img.copyOk = false) :
    after_dedup o st img = { st with copy_failed := st.copy_failed + 1 } := by
  unfold after_dedup
  rw [hd]
  dsimp only
  rw [if_neg hmem, hcp]
  rfl

/-- Branch equation: no resolvable date bumps `unknown_date` only. -/
lemma after_dedup_of_none (o : String) (st : OrgState) (img : Img)
    (hd : (img.exifDate <|> infer_date_from_path img.path) = none) :
    after_dedup o st img =
      { st with stats := { st.stats with unknown_date := st.stats.unknown_date + 1 } } := by
  unfold after_dedup
  rw [hd]

/-- Process-level branch equation: non-duplicate, date resolved,
destination already present. -/
lemma process_image_of_existing (o : String) (st : OrgState) (img : Img) (d : PyDate)
    (hnd : ¬ isDupStep st img)
    (hd : (img.exifDate <|> infer_date_from_path img.path) = some d)
    (hmem : destination_of o img.path d ∈ st.fs) :
    process_image o st img =
      { st with
        seen_hashes := img.hash :: st.seen_hashes
        stats := { st.stats with total_files := st.stats.total_files + 1 }
        skipped_existing := st.skipped_existing + 1 } := by
  rw [process_image_of_not_dup o st img hnd]
  exact after_dedup_of_existing o _ img d hd hmem

/-- Process-level branch equation: non-duplicate, date resolved,
destination absent, copy succeeds. -/
lemma process_image_of_copy (o : String) (st : OrgState) (img : Img) (d : PyDate)
    (hnd : ¬ isDupStep st img)
    (hd : (img.exifDate <|> infer_date_from_path img.path) = some d)
    (hmem : destination_of o img.path d ∉ st.fs) (hcp : img.copyOk = true) :
    process_image o st img =
      { st with
        seen_hashes := img.hash :: st.seen_hashes
        stats := { st.stats with
                   total_files := st.stats.total_files + 1
                   copied := st.stats.copied + 1 }
        fs := destination_of o img.path d :: st.fs
        photo_manifest := st.photo_manifest ++
          [⟨img.path, destination_of o img.path d, some d,
            extract_location_keywords img.path⟩] } := by
  rw [process_image_of_not_dup o st img hnd]
  exact after_dedup_of_copy o _ img d hd hmem hcp

/-- Process-level branch equation: non-duplicate, date resolved,
destination absent, copy fails. -/
lemma process_image_of_failcopy (o : String) (st : OrgState) (img : Img) (d : PyDate)
    (hnd : ¬ isDupStep st img)
    (hd : (img.exifDate <|> infer_date_from_path img.path) = some d)
    (hmem : destination_of o img.path d ∉ st.fs) (hcp : img.copyOk = false) :
    process_image o st img =
      { st with
        seen_hashes := img.hash :: st.seen_hashes
        stats := { st.stats with total_files := st.stats.total_files + 1 }
        copy_failed := st.copy_failed + 1 } := by
  rw [process_image_of_not_dup o st img hnd]
  exact after_dedup_of_fail o _ img d hd hmem hcp

/-- Process-level branch equation: non-duplicate, no resolvable date. -/
lemma process_image_of_unknown (o : String) (st : OrgState) (img : Img)
    (hnd : ¬ isDupStep st img)
    (hd : (img.exifDate <|> infer_date_from_path img.path) = none) :
    process_image o st img =
      { st with
        seen_hashes := img.hash :: st.seen_hashes
        stats := { st.stats with
                   total_files := st.stats.total_files + 1
                   unknown_date := st.stats.unknown_date + 1 } } := by
  rw [process_image_of_not_dup o st img hnd]
  exact after_dedup_of_none o _ img hd

/-- The dedup gate only depends on the seen-set. -/
lemma isDupStep_congr {st1 st2 : OrgState} (img : Img)
    (h : st1.seen_hashes = st2.seen_hashes) :
    isDupStep st1 img ↔ isDupStep st2 img := by
  unfold isDupStep
  cases img.hash with
  | some hv => rw [h]
  | none => exact Iff.rfl

lemma process_image_seen (o : String) (st : OrgState) (img : Img) :
    (process_image o st img).seen_hashes = next_seen st.seen_hashes img := by
  unfold next_seen
  by_cases h : isDupStep st img
  · rw [process_image_of_dup o st img h]
    unfold isDupStep at h
    cases hh : img.hash with
    | none => simp only [hh] at h
    | some hv => simp only [hh] at h ⊢; rw [if_pos h]
  · rw [process_image_of_not_dup o st img h, (after_dedup_frame o _ img).2.2]
    unfold isDupStep at h
    cases hh : img.hash with
    | none => simp only [hh]
    | some hv => simp only [hh] at h ⊢; rw [if_neg h]

lemma after_dedup_fs_mono (o : String) (st : OrgState) (img : Img) :
    st.fs ⊆ (after_dedup o st img).fs := by
  unfold after_dedup
  split
  · exact fun x hx => hx
  · dsimp only
    split
    · exact fun x hx => hx
    · split
      · exact fun x hx => List.mem_cons_of_mem _ hx
      · exact fun x hx => hx

lemma process_image_fs_mono (o : String) (st : OrgState) (img : Img) :
    st.fs ⊆ (process_image o st img).fs := by
  by_cases h : isDupStep st img
  · rw [process_image_of_dup o st img h]
    exact fun x hx => hx
  · rw [process_image_of_not_dup o st img h]
    exact fun x hx => after_dedup_fs_mono o _ img hx

lemma run_from_fs_mono (o : String) : ∀ (imgs : List Img) (st : OrgState),
    st.fs ⊆ (run_from o st imgs).fs := by
  intro imgs
  induction imgs with
  | nil => intro st x hx; exact hx
  | cons img rest ih =>
    intro st
    rw [run_from_cons]
    exact fun x hx => ih (process_image o st img) (process_image_fs_mono o st img hx)

lemma after_dedup_manifest_copied (o : String) (st : OrgState) (img : Img) :
    (after_dedup o st img).photo_manifest.length + st.stats.copied =
      st.photo_manifest.length + (after_dedup o st img).stats.copied := by
  unfold after_dedup
  split
  · rfl
  · dsimp only
    split
    · rfl
    · split
      · dsimp only
        simp only [List.length_append, List.length_singleton]
        omega
      · rfl

lemma process_image_manifest_copied (o : String) (st : OrgState) (img : Img) :
    (process_image o st img).photo_manifest.length + st.stats.copied =
      st.photo_manifest.length + (process_image o st img).stats.copied := by
  by_cases h : isDupStep st img
  · rw [process_image_of_dup o st img h]
  · rw [process_image_of_not_dup o st img h]
    exact after_dedup_manifest_copied o _ img

lemma run_from_manifest_copied (o : String) : ∀ (imgs : List Img) (st : OrgState),
    (run_from o st imgs).photo_manifest.length + st.stats.copied =
      st.photo_manifest.length + (run_from o st imgs).stats.copied := by
  intro imgs
  induction imgs with
  | nil => intro st; rfl
  | cons img rest ih =>
    intro st
    rw [run_from_cons]
    have h1 := ih (process_image o st img)
    have h2 := process_image_manifest_copied o st img
    omega

/-- If an iteration raised the `copied` counter, the image resolved a
date, its destination was absent, the copy succeeded, and it was not a
duplicate. -/
lemma step_copied_changed (o : String) (st : OrgState) (img : Img)
    (h : (process_image o st img).stats.copied ≠ st.stats.copied) :
    ∃ d, (img.exifDate <|> infer_date_from_path img.path) = some d ∧
      destination_of o img.path d ∉ st.fs ∧ img.copyOk = true ∧ ¬ isDupStep st img := by
  by_cases hdup : isDupStep st img
  · rw [process_image_of_dup o st img hdup] at h
    exact absurd rfl h
  · cases hd : (img.exifDate <|> infer_date_from_path img.path) with
    | none =>
      rw [process_image_of_unknown o st img hdup hd] at h
      exact absurd rfl h
    | some d =>
      by_cases hmem : destination_of o img.path d ∈ st.fs
      · rw [process_image_of_existing o st img d hdup hd hmem] at h
        exact absurd rfl h
      · cases hcp : img.copyOk with
        | true => exact ⟨d, rfl, hmem, rfl, hdup⟩
        | false =>
          rw [process_image_of_failcopy o st img d hdup hd hmem hcp] at h
          exact absurd rfl h

/-- A dated, non-duplicate image whose copy would succeed always leaves
its destination present in the filesystem after its iteration, whether it
was copied now or already existed. -/
lemma dest_in_fs_after (o : String) (st : OrgState) (img : Img) (d : PyDate)
    (hd : (img.exifDate <|> infer_date_from_path img.path) = some d)
    (hnd : ¬ isDupStep st img) (hcp : img.copyOk = true) :
    destination_of o img.path d ∈ (process_image o st img).fs := by
  by_cases hmem : destination_of o img.path d ∈ st.fs
  · rw [process_image_of_existing o st img d hnd hd hmem]
    exact hmem
  · rw [process_image_of_copy o st img d hnd hd hmem hcp]
    exact List.mem_cons_self _ _

/-- Parallel-run stability: if a second run starts from the same seen-set
and from a filesystem that already contains everything the first run will
ever have in its filesystem, the second run copies nothing. -/
lemma run_from_copied_stable (o : String) : ∀ (imgs : List Img) (st1 st2 : OrgState),
    st1.seen_hashes = st2.seen_hashes →
    (run_from o st1 imgs).fs ⊆ st2.fs →
    (run_from o st2 imgs).stats.copied = st2.stats.copied := by
  intro imgs
  induction imgs with
  | nil => intro st1 st2 _ _; rfl
  | cons img rest ih =>
    intro st1 st2 hseen hsub
    rw [run_from_cons] at hsub ⊢
    have hseen2 : (process_image o st1 img).seen_hashes = (process_image o st2 img).seen_hashes := by
      rw [process_image_seen, process_image_seen, hseen]
    have hsub2 : (run_from o (process_image o st1 img) rest).fs ⊆ (process_image o st2 img).fs :=
      fun x hx => process_image_fs_mono o st2 img (hsub hx)
    have hIH := ih (process_image o st1 img) (process_image o st2 img) hseen2 hsub2
    rw [hIH]
    by_cases hcop : (process_image o st2 img).stats.copied = st2.stats.copied
    · exact hcop
    · exfalso
      obtain ⟨d, hd, hnfs, hcp, hnd2⟩ := step_copied_changed o st2 img hcop
      have hnd1 : ¬ isDupStep st1 img := fun hc => hnd2 ((isDupStep_congr img hseen).mp hc)
      have h1 : destination_of o img.path d ∈ (process_image o st1 img).fs :=
        dest_in_fs_after o st1 img d hd hnd1 hcp
      have h2 : destination_of o img.path d ∈ (run_from o (process_image o st1 img) rest).fs :=
        run_from_fs_mono o rest (process_image o st1 img) h1
      exact hnfs (hsub h2)

/-- A non-duplicate image whose destination already exists only bumps
`total_files` (and the ghost skip counter): the manifest, the filesystem
and the other statistics are untouched. -/
lemma step_skip_frame (o : String) (st : OrgState) (img : Img) (d : PyDate)
    (hd : (img.exifDate <|> infer_date_from_path img.path) = some d)
    (hnd : ¬ isDupStep st img)
    (hfs : destination_of o img.path d ∈ st.fs) :
    (process_image o st img).photo_manifest = st.photo_manifest ∧
    (process_image o st img).stats =
      { st.stats with total_files := st.stats.total_files + 1 } ∧
    (process_image o st img).fs = st.fs := by
  rw [process_image_of_existing o st img d hnd hd hfs]
  exact ⟨rfl, rfl, rfl⟩

/-- A non-duplicate image with no resolvable date bumps `unknown_date`
and is never placed: manifest and filesystem are untouched. -/
lemma step_unknown_frame (o : String) (st : OrgState) (img : Img)
    (hd : (img.exifDate <|> infer_date_from_path img.path) = none)
    (hnd : ¬ isDupStep st img) :
    (process_image o st img).stats.unknown_date = st.stats.unknown_date + 1 ∧
    (process_image o st img).photo_manifest = st.photo_manifest ∧
    (process_image o st img).fs = st.fs := by
  rw [process_image_of_unknown o st img hnd hd]
  exact ⟨rfl, rfl, rfl⟩

/-- Every manifest entry an iteration appends has the invariant shape. -/
lemma step_manifest_shape (o : String) (st : OrgState) (img : Img)
    (hst : ∀ e ∈ st.photo_manifest, EntryShape o e) :
    ∀ e ∈ (process_image o st img).photo_manifest, EntryShape o e := by
  by_cases hdup : isDupStep st img
  · rw [process_image_of_dup o st img hdup]
    exact hst
  · cases hd : (img.exifDate <|> infer_date_from_path img.path) with
    | none =>
      rw [process_image_of_unknown o st img hdup hd]
      exact hst
    | some d =>
      by_cases hmem : destination_of o img.path d ∈ st.fs
      · rw [process_image_of_existing o st img d hdup hd hmem]
        exact hst
      · cases hcp : img.copyOk with
        | false =>
          rw [process_image_of_failcopy o st img d hdup hd hmem hcp]
          exact hst
        | true =>
          rw [process_image_of_copy o st img d hdup hd hmem hcp]
          intro e he
          dsimp only at he
          rw [List.mem_append] at he
          rcases he with he | he
          · exact hst e he
          · rw [List.mem_singleton] at he
            subst he
            refine ⟨d, rfl, ?_⟩
            unfold destination_of dest_dir
            dsimp only
            cases hev : find_event_label img.path with
            | none => exact Or.inl ⟨rfl, rfl⟩
            | some ev => exact Or.inr ⟨ev, rfl, rfl⟩

lemma run_from_manifest_shape (o : String) : ∀ (imgs : List Img) (st : OrgState),
    (∀ e ∈ st.photo_manifest, EntryShape o e) →
    ∀ e ∈ (run_from o st imgs).photo_manifest, EntryShape o e := by
  intro imgs
  induction imgs with
  | nil => intro st hst; exact hst
  | cons img rest ih =>
    intro st hst
    rw [run_from_cons]
    exact ih (process_image o st img) (step_manifest_shape o st img hst)

/-! ## C1 -/

/-- C1 (evaluation at the failing input): on the test path
`…/2019/05/misc_2019_extra/photo.jpg` the code resolves 2019-01-01 via
the bare-year pattern, not 2019-05-01 via the `YYYY/M` pattern: the path
is split on the separator before matching, so no segment can contain the
`[/\\]` the first pattern requires, and even a matching segment would
fall to `month_str_to_int` raising on the numeric month group. -/
theorem c1_yyyy_mm_eval :
    infer_date_from_path "/photos/2019/05/misc_2019_extra/photo.jpg" =
      some ⟨2019, 1, 1⟩ ∧
    infer_date_from_path "/photos/2019/05/misc_2019_extra/photo.jpg" ≠
      some ⟨2019, 5, 1⟩ := by
  exact ⟨rfl, by decide⟩

/-! ## C2 -/

/-- C2 (evaluation at the failing input): `"Summer_Aug_Trip/img.jpg"`
resolves to no date at all. The month-name match falls into the
single-group branch, where `int("Aug")` raises and the loop moves on; the
intended `datetime(2000, month, 1)` branch is unreachable. -/
theorem c2_month_name_eval :
    infer_date_from_path "Summer_Aug_Trip/img.jpg" = none := by
  rfl

/-! ## C3 -/

/-- C3 counterexample: a single image whose destination already exists is
counted in `total_files` but in no other counter, so
`total_files = deduplicated + copied + unknown_date + copy_failures`
fails (1 ≠ 0). -/
theorem c3_reconcile_counterexample :
    ¬ (skipRun.stats.total_files =
        skipRun.stats.deduplicated + skipRun.stats.copied +
        skipRun.stats.unknown_date + skipRun.copy_failed) := by
  decide

/-- C3 as amended: after any complete run the counters reconcile once the
destination-already-exists skips are also counted:
`total_files = deduplicated + copied + unknown_date + copy_failures
+ skipped_existing`. -/
theorem c3_reconcile_amended (o : String) (imgs : List Img) (fs0 : List String) :
    (organise_photos o imgs fs0).stats.total_files =
      (organise_photos o imgs fs0).stats.deduplicated +
      (organise_photos o imgs fs0).stats.copied +
      (organise_photos o imgs fs0).stats.unknown_date +
      (organise_photos o imgs fs0).copy_failed +
      (organise_photos o imgs fs0).skipped_existing := by
  have h1 := run_from_total o imgs (init_state fs0)
  have h2 := run_from_dispositions o imgs (init_state fs0)
  unfold dispositions at h2
  unfold organise_photos
  simp only [init_state] at h1 h2 ⊢
  simp at h1 h2
  omega

/-! ## C5 -/

/-- C5: an image whose fingerprint computation failed (`hash = none`) is
never counted as deduplicated — even when null fingerprints were seen
before — and always proceeds past the gate to date resolution. -/
theorem c5_null_fingerprint_never_dedup (o : String) (st : OrgState) (img : Img)
    (h : img.hash = none) :
    (process_image o st img).stats.deduplicated = st.stats.deduplicated ∧
    process_image o st img =
      after_dedup o
        { st with
          seen_hashes := none :: st.seen_hashes,
          stats := { st.stats with total_files := st.stats.total_files + 1 } } img := by
  constructor
  · unfold process_image
    rw [h]
    exact (after_dedup_frame o _ img).2.1
  · unfold process_image
    rw [h]

/-- Witness for C5 at a concrete input whose state has already seen a
null fingerprint: the image is still not deduplicated. -/
theorem c5_null_fingerprint_never_dedup_witness :
    (⟨"x.jpg", none, none, true⟩ : Img).hash = none ∧
    (process_image "out" ⟨[none], ⟨3, 0, 0, 0⟩, [], [], 0, 0⟩
        ⟨"x.jpg", none, none, true⟩).stats.deduplicated = 0 := by
  refine ⟨rfl, ?_⟩
  exact (c5_null_fingerprint_never_dedup "out" ⟨[none], ⟨3, 0, 0, 0⟩, [], [], 0, 0⟩
    ⟨"x.jpg", none, none, true⟩ rfl).1

/-! ## Machinery for C4 -/

lemma run_from_append (o : String) (st : OrgState) (l1 l2 : List Img) :
    run_from o st (l1 ++ l2) = run_from o (run_from o st l1) l2 := by
  unfold run_from
  rw [List.foldl_append]

lemma filter_length_succ {α : Type} [DecidableEq α] (h : α) (p q : α → Bool)
    (hph : p h = true) (hqh : q h = false) :
    ∀ (L : List α), L.Nodup → h ∈ L → (∀ x ∈ L, x ≠ h → p x = q x) →
    (L.filter p).length = (L.filter q).length + 1 := by
  intro L
  induction L with
  | nil => intro _ hmem _; exact absurd hmem (List.not_mem_nil h)
  | cons a t ih =>
    intro hnd hmem hpq
    by_cases hah : a = h
    · subst hah
      have hat : a ∉ t := (List.nodup_cons.mp hnd).1
      have hft : t.filter p = t.filter q :=
        List.filter_congr (fun x hx => hpq x (List.mem_cons_of_mem a hx)
          (fun he => hat (he ▸ hx)))
      rw [List.filter_cons_of_pos hph, List.filter_cons_of_neg (by simp [hqh]), hft,
        List.length_cons]
    · have hmt : h ∈ t := (List.mem_cons.mp hmem).resolve_left (fun he => hah he.symm)
      have hih := ih (List.nodup_cons.mp hnd).2 hmt
        (fun x hx h2 => hpq x (List.mem_cons_of_mem a hx) h2)
      have hpa : p a = q a := hpq a (List.mem_cons_self a t) hah
      cases hqa : q a with
      | true =>
        rw [List.filter_cons_of_pos (by rw [hpa, hqa]), List.filter_cons_of_pos hqa,
          List.length_cons, List.length_cons, hih]
      | false =>
        rw [List.filter_cons_of_neg (by simp [hpa, hqa]), List.filter_cons_of_neg (by simp [hqa])]
        exact hih

lemma unseen_distinct_cons_nullhash (seen : List (Option ℕ)) (img : Img) (rest : List Img)
    (h : img.hash = none) :
    unseen_distinct seen (img :: rest) = unseen_distinct seen rest := by
  unfold unseen_distinct
  rw [List.filterMap_cons_none h]

lemma unseen_distinct_seen_none (seen : List (Option ℕ)) (rest : List Img) :
    unseen_distinct (none :: seen) rest = unseen_distinct seen rest := by
  unfold unseen_distinct
  congr 1
  apply List.filter_congr
  intro x _
  simp [List.mem_cons]

lemma unseen_distinct_cons_dup (seen : List (Option ℕ)) (img : Img) (rest : List Img)
    (hv : ℕ) (hh : img.hash = some hv) (hmem : some hv ∈ seen) :
    unseen_distinct seen (img :: rest) = unseen_distinct seen rest := by
  unfold unseen_distinct
  rw [List.filterMap_cons_some hh]
  by_cases hm : hv ∈ rest.filterMap Img.hash
  · rw [List.dedup_cons_of_mem hm]
  · rw [List.dedup_cons_of_not_mem hm, List.filter_cons_of_neg (by simp [hmem])]

lemma unseen_distinct_cons_fresh (seen : List (Option ℕ)) (img : Img) (rest : List Img)
    (hv : ℕ) (hh : img.hash = some hv) (hmem : some hv ∉ seen) :
    unseen_distinct seen (img :: rest) = unseen_distinct (some hv :: seen) rest + 1 := by
  unfold unseen_distinct
  rw [List.filterMap_cons_some hh]
  by_cases hm : hv ∈ rest.filterMap Img.hash
  · rw [List.dedup_cons_of_mem hm]
    exact filter_length_succ hv _ _ (by simp [hmem]) (by simp)
      ((rest.filterMap Img.hash).dedup) (List.nodup_dedup _) (List.mem_dedup.mpr hm)
      (fun x hx h2 => by simp [List.mem_cons, h2])
  · rw [List.dedup_cons_of_not_mem hm, List.filter_cons_of_pos (by simp [hmem]),
      List.length_cons]
    have hfc : List.filter (fun h => decide (some h ∉ seen)) (List.filterMap Img.hash rest).dedup
        = List.filter (fun h => decide (some h ∉ some hv :: seen))
            (List.filterMap Img.hash rest).dedup := by
      apply List.filter_congr
      intro x hx
      have hxn : x ≠ hv := fun he => hm (he ▸ List.mem_dedup.mp hx)
      simp [List.mem_cons, hxn]
    rw [hfc]

lemma null_fingerprints_cons_none (img : Img) (rest : List Img) (h : img.hash = none) :
    null_fingerprints (img :: rest) = null_fingerprints rest + 1 := by
  unfold null_fingerprints
  rw [List.filter_cons_of_pos (by simp [h]), List.length_cons]

lemma null_fingerprints_cons_some (img : Img) (rest : List Img) (hv : ℕ)
    (h : img.hash = some hv) :
    null_fingerprints (img :: rest) = null_fingerprints rest := by
  unfold null_fingerprints
  rw [List.filter_cons_of_neg (by simp [h])]

lemma process_image_manifest_le (o : String) (st : OrgState) (img : Img) :
    (process_image o st img).photo_manifest.length ≤ st.photo_manifest.length + 1 := by
  by_cases hdup : isDupStep st img
  · rw [process_image_of_dup o st img hdup]
    dsimp only
    omega
  · cases hd : (img.exifDate <|> infer_date_from_path img.path) with
    | none =>
      rw [process_image_of_unknown o st img hdup hd]
      dsimp only
      omega
    | some d =>
      by_cases hmem : destination_of o img.path d ∈ st.fs
      · rw [process_image_of_existing o st img d hdup hd hmem]
        dsimp only
        omega
      · cases hcp : img.copyOk with
        | true =>
          rw [process_image_of_copy o st img d hdup hd hmem hcp]
          dsimp only
          simp [List.length_append]
        | false =>
          rw [process_image_of_failcopy o st img d hdup hd hmem hcp]
          dsimp only
          omega

lemma run_manifest_le (o : String) : ∀ (imgs : List Img) (st : OrgState),
    (run_from o st imgs).photo_manifest.length ≤
      st.photo_manifest.length + unseen_distinct st.seen_hashes imgs +
        null_fingerprints imgs := by
  intro imgs
  induction imgs with
  | nil =>
    intro st
    simp [run_from, unseen_distinct, null_fingerprints]
  | cons img rest ih =>
    intro st
    rw [run_from_cons]
    have hstep := process_image_manifest_le o st img
    have hseen := process_image_seen o st img
    have hihs := ih (process_image o st img)
    cases hh : img.hash with
    | none =>
      have hseq : (process_image o st img).seen_hashes = none :: st.seen_hashes := by
        rw [hseen]
        unfold next_seen
        rw [hh]
      rw [hseq, unseen_distinct_seen_none] at hihs
      rw [unseen_distinct_cons_nullhash st.seen_hashes img rest hh,
        null_fingerprints_cons_none img rest hh]
      omega
    | some hv =>
      by_cases hmem : some hv ∈ st.seen_hashes
      · have hdup : isDupStep st img := by
          unfold isDupStep
          rw [hh]
          exact hmem
        have heq := process_image_of_dup o st img hdup
        rw [heq] at hihs
        rw [heq]
        dsimp only at hihs ⊢
        rw [unseen_distinct_cons_dup st.seen_hashes img rest hv hh hmem,
          null_fingerprints_cons_some img rest hv hh]
        omega
      · have hseq : (process_image o st img).seen_hashes = some hv :: st.seen_hashes := by
          rw [hseen]
          unfold next_seen
          rw [hh]
          dsimp only
          rw [if_neg hmem]
        rw [hseq] at hihs
        rw [unseen_distinct_cons_fresh st.seen_hashes img rest hv hh hmem,
          null_fingerprints_cons_some img rest hv hh]
        omega

lemma process_image_seen_incl (o : String) (st : OrgState) (img : Img) :
    st.seen_hashes ⊆ (process_image o st img).seen_hashes := by
  rw [process_image_seen]
  unfold next_seen
  cases img.hash with
  | none => exact fun x hx => List.mem_cons_of_mem _ hx
  | some hv =>
    dsimp only
    by_cases hm : some hv ∈ st.seen_hashes
    · rw [if_pos hm]
      exact fun x hx => hx
    · rw [if_neg hm]
      exact fun x hx => List.mem_cons_of_mem _ hx

lemma process_image_hash_mem (o : String) (st : OrgState) (img : Img) :
    img.hash ∈ (process_image o st img).seen_hashes := by
  rw [process_image_seen]
  unfold next_seen
  cases img.hash with
  | none => exact List.mem_cons_self _ _
  | some hv =>
    dsimp only
    by_cases hm : some hv ∈ st.seen_hashes
    · rw [if_pos hm]
      exact hm
    · rw [if_neg hm]
      exact List.mem_cons_self _ _

lemma run_from_seen_incl (o : String) : ∀ (imgs : List Img) (st : OrgState),
    st.seen_hashes ⊆ (run_from o st imgs).seen_hashes := by
  intro imgs
  induction imgs with
  | nil => intro st x hx; exact hx
  | cons img rest ih =>
    intro st
    rw [run_from_cons]
    exact fun x hx => ih (process_image o st img) (process_image_seen_incl o st img hx)

lemma run_from_hash_mem (o : String) : ∀ (imgs : List Img) (st : OrgState) (img : Img),
    img ∈ imgs → img.hash ∈ (run_from o st imgs).seen_hashes := by
  intro imgs
  induction imgs with
  | nil => intro st img h; exact absurd h (List.not_mem_nil img)
  | cons a rest ih =>
    intro st img h
    rw [run_from_cons]
    rcases List.mem_cons.mp h with rfl | hmem
    · exact run_from_seen_incl o rest _ (process_image_hash_mem o st img)
    · exact ih _ img hmem

/-! ## C4 -/

/-- C4 counterexample: two unreadable images (null fingerprints) with
path-inferable dates both reach the manifest, so the manifest length (2)
exceeds the number of distinct observed fingerprints (0 non-null values;
even counting the null itself as one observed value, 2 > 1). -/
theorem c4_counterexample :
    ¬ (nullRun.photo_manifest.length ≤ distinct_fingerprints nullImgs) := by
  decide

/-- C4 as amended: among images sharing a non-null fingerprint only the
first in enumeration order can contribute to the manifest (a later
equal-fingerprint image changes the manifest by nothing), and the
manifest length never exceeds the number of distinct observed non-null
fingerprints plus the number of null-fingerprint images. -/
theorem c4_dedup_first_seen (o : String) (imgs : List Img) (fs0 : List String) :
    ((organise_photos o imgs fs0).photo_manifest.length ≤
       distinct_fingerprints imgs + null_fingerprints imgs) ∧
    (∀ (i j : ℕ) (hi : i < imgs.length) (hj : j < imgs.length) (hv : ℕ),
      i < j → (imgs.get ⟨i, hi⟩).hash = some hv → (imgs.get ⟨j, hj⟩).hash = some hv →
      (organise_photos o (imgs.take (j + 1)) fs0).photo_manifest =
        (organise_photos o (imgs.take j) fs0).photo_manifest) := by
  constructor
  · have h := run_manifest_le o imgs (init_state fs0)
    have hud : unseen_distinct ([] : List (Option ℕ)) imgs = distinct_fingerprints imgs := by
      unfold unseen_distinct distinct_fingerprints
      congr 1
      apply List.filter_eq_self.mpr
      intro x _
      simp
    have h3 : (init_state fs0).seen_hashes = ([] : List (Option ℕ)) := rfl
    rw [h3, hud] at h
    have h2 : (init_state fs0).photo_manifest.length = 0 := rfl
    unfold organise_photos
    omega
  · intro i j hi hj hv hij hhi hhj
    have hjt : imgs[j]? = some (imgs.get ⟨j, hj⟩) := by
      simp [List.getElem?_eq_getElem hj]
    have htake : imgs.take (j + 1) = imgs.take j ++ [imgs.get ⟨j, hj⟩] := by
      rw [List.take_succ, hjt]
      rfl
    unfold organise_photos
    rw [htake, run_from_append, run_from_cons]
    have hilt : i < (imgs.take j).length := by
      rw [List.length_take]
      omega
    have hgeteq : (imgs.take j).get ⟨i, hilt⟩ = imgs.get ⟨i, hi⟩ := by
      simp [List.getElem_take]
    have hmemi : imgs.get ⟨i, hi⟩ ∈ imgs.take j := by
      rw [← hgeteq]
      exact List.get_mem _ _ _
    have hseen : some hv ∈ (run_from o (init_state fs0) (imgs.take j)).seen_hashes := by
      have hm := run_from_hash_mem o (imgs.take j) (init_state fs0) _ hmemi
      rw [hhi] at hm
      exact hm
    have hdup : isDupStep (run_from o (init_state fs0) (imgs.take j)) (imgs.get ⟨j, hj⟩) := by
      unfold isDupStep
      rw [hhj]
      exact hseen
    rw [process_image_of_dup o _ _ hdup]
    rfl

/-- Witness for C4: on two images sharing fingerprint 5, processing the
second adds nothing to the manifest. -/
theorem c4_dedup_first_seen_witness :
    (dupImgs.get ⟨0, by decide⟩).hash = some 5 ∧
    (dupImgs.get ⟨1, by decide⟩).hash = some 5 ∧
    (organise_photos "out" (dupImgs.take 2) []).photo_manifest =
      (organise_photos "out" (dupImgs.take 1) []).photo_manifest :=
  ⟨rfl, rfl, (c4_dedup_first_seen "out" dupImgs []).2 0 1 (by decide) (by decide) 5
    (by decide) rfl rfl⟩

/-! ## Machinery for C7: digit characters -/

lemma digit_bounds {c : Char} (h : isDigitChar c = true) : 48 ≤ c.toNat ∧ c.toNat ≤ 57 := by
  unfold isDigitChar at h
  simp at h
  exact h

lemma char_eq_iff_toNat (c d : Char) : c = d ↔ c.toNat = d.toNat :=
  ⟨fun h => by rw [h], fun h => by
    have h2 : Char.ofNat c.toNat = Char.ofNat d.toNat := by rw [h]
    rwa [Char.ofNat_toNat, Char.ofNat_toNat] at h2⟩

lemma digit_cases {c : Char} (h : isDigitChar c = true) :
    c = '0' ∨ c = '1' ∨ c = '2' ∨ c = '3' ∨ c = '4' ∨
    c = '5' ∨ c = '6' ∨ c = '7' ∨ c = '8' ∨ c = '9' := by
  have hb := digit_bounds h
  simp only [char_eq_iff_toNat,
    show ('0':Char).toNat = 48 from rfl, show ('1':Char).toNat = 49 from rfl,
    show ('2':Char).toNat = 50 from rfl, show ('3':Char).toNat = 51 from rfl,
    show ('4':Char).toNat = 52 from rfl, show ('5':Char).toNat = 53 from rfl,
    show ('6':Char).toNat = 54 from rfl, show ('7':Char).toNat = 55 from rfl,
    show ('8':Char).toNat = 56 from rfl, show ('9':Char).toNat = 57 from rfl]
  omega

lemma digit_not_sep {c : Char} (h : isDigitChar c = true) : isSepChar c = false := by
  rcases digit_cases h with rfl|rfl|rfl|rfl|rfl|rfl|rfl|rfl|rfl|rfl <;> rfl

lemma digit_toLower {c : Char} (h : isDigitChar c = true) : toLowerChar c = c := by
  rcases digit_cases h with rfl|rfl|rfl|rfl|rfl|rfl|rfl|rfl|rfl|rfl <;> rfl

lemma digit_ne_slash {c : Char} (h : isDigitChar c = true) : ¬ c = '/' := by
  rcases digit_cases h with rfl|rfl|rfl|rfl|rfl|rfl|rfl|rfl|rfl|rfl <;> decide

/-! ## Machinery for C7: the four patterns on an all-digit segment -/

lemma matchP4At_digit_prev (p : Char) (hp : isDigitChar p = true) (s : List Char) :
    matchP4At (some p) s = none := by
  unfold matchP4At
  rw [if_pos (by simp [hp])]

lemma matchP4At_none_four (a b c d : Char) (ha : isDigitChar a = true) :
    matchP4At none [a,b,c,d] =
      if p4YearCond a b c d then some ([[a,b,c,d]], [a,b,c,d]) else none := by
  unfold matchP4At yearAlt
  simp [digit_not_sep ha]
  by_cases hy : p4YearCond a b c d
  · simp [hy, p4Trail, p4TrailTaken]
  · simp [hy]

lemma searchP4_four_digits (a b c d : Char) (ha : isDigitChar a = true)
    (hb : isDigitChar b = true) (hc : isDigitChar c = true) :
    searchP4 [a,b,c,d] =
      if p4YearCond a b c d then some ([[a,b,c,d]], [a,b,c,d]) else none := by
  unfold searchP4
  show (matchP4At none [a,b,c,d] <|> searchP4Aux (some a) [b,c,d]) = _
  have h1 : searchP4Aux (some a) [b,c,d] = none := by
    show (matchP4At (some a) [b,c,d] <|> searchP4Aux (some b) [c,d]) = none
    rw [matchP4At_digit_prev a ha]
    show (matchP4At (some b) [c,d] <|> searchP4Aux (some c) [d]) = none
    rw [matchP4At_digit_prev b hb]
    show (matchP4At (some c) [d] <|> searchP4Aux (some d) []) = none
    rw [matchP4At_digit_prev c hc]
    rfl
  rw [h1, matchP4At_none_four a b c d ha]
  by_cases hy : p4YearCond a b c d
  · simp [hy]
  · simp [hy]

lemma digit_head_not_month (x : Char) (hx : isDigitChar x = true) (y z : Char) :
    ¬ ([toLowerChar x, y, z] ∈ months) := by
  intro hmem
  have hall : ∀ m ∈ months, 97 ≤ (m.headD ' ').toNat := by decide
  have h2 := hall _ hmem
  rw [List.headD_cons, digit_toLower hx] at h2
  have hb := digit_bounds hx
  omega

lemma matchP2At_digit (x : Char) (hx : isDigitChar x = true) (t : List Char) :
    matchP2At (x :: t) = none := by
  unfold matchP2At
  cases t with
  | nil => rfl
  | cons y t2 =>
    cases t2 with
    | nil => rfl
    | cons z t3 =>
      dsimp only
      rw [if_neg (digit_head_not_month x hx (toLowerChar y) (toLowerChar z))]

lemma searchP2_digits : ∀ (s : List Char), (∀ c ∈ s, isDigitChar c = true) →
    searchP2 s = none := by
  intro s
  induction s with
  | nil => intro _; rfl
  | cons x t ih =>
    intro hall
    show (matchP2At (x :: t) <|> searchP2 t) = none
    rw [matchP2At_digit x (hall x (List.mem_cons_self x t))]
    show searchP2 t = none
    exact ih (fun cc hcc => hall cc (List.mem_cons_of_mem x hcc))

/-! ## Machinery for C7: digit values and the whole segment -/

lemma digitsVal_four (a b c d : Char) : digitsVal [a,b,c,d] =
    (((a.toNat - 48) * 10 + (b.toNat - 48)) * 10 + (c.toNat - 48)) * 10 + (d.toNat - 48) := by
  unfold digitsVal
  simp [List.foldl]

lemma p4YearCond_iff_val (a b c d : Char)
    (ha : isDigitChar a = true) (hb : isDigitChar b = true)
    (hc : isDigitChar c = true) (hdd : isDigitChar d = true) :
    p4YearCond a b c d ↔
      1980 ≤ digitsVal [a,b,c,d] ∧ digitsVal [a,b,c,d] ≤ 2029 := by
  have hba := digit_bounds ha
  have hbb := digit_bounds hb
  have hbc := digit_bounds hc
  have hbd := digit_bounds hdd
  rw [digitsVal_four]
  unfold p4YearCond
  simp only [char_eq_iff_toNat,
    show ('0':Char).toNat = 48 from rfl, show ('1':Char).toNat = 49 from rfl,
    show ('2':Char).toNat = 50 from rfl, show ('8':Char).toNat = 56 from rfl,
    show ('9':Char).toNat = 57 from rfl, hdd, and_true]
  omega

lemma digitsVal_four_le (a b c d : Char)
    (ha : isDigitChar a = true) (hb : isDigitChar b = true)
    (hc : isDigitChar c = true) (hdd : isDigitChar d = true) :
    digitsVal [a,b,c,d] ≤ 9999 := by
  have hba := digit_bounds ha
  have hbb := digit_bounds hb
  have hbc := digit_bounds hc
  have hbd := digit_bounds hdd
  rw [digitsVal_four]
  omega

lemma isPyDigits_four (a b c d : Char)
    (ha : isDigitChar a = true) (hb : isDigitChar b = true)
    (hc : isDigitChar c = true) (hdd : isDigitChar d = true) :
    isPyDigits [a,b,c,d] = true := by
  simp [isPyDigits, ha, hb, hc, hdd]

lemma segmentDate_four_digits (a b c d : Char)
    (ha : isDigitChar a = true) (hb : isDigitChar b = true)
    (hc : isDigitChar c = true) (hdd : isDigitChar d = true) :
    segmentDate [a,b,c,d] =
      if 1988 ≤ digitsVal [a,b,c,d] ∧ digitsVal [a,b,c,d] ≤ 2025
      then some ⟨digitsVal [a,b,c,d], 1, 1⟩ else none := by
  unfold segmentDate
  have h1 : patternDate searchP1 [a,b,c,d] = none := rfl
  have h2 : patternDate searchP2 [a,b,c,d] = none := by
    unfold patternDate
    rw [searchP2_digits [a,b,c,d] (by simp [ha, hb, hc, hdd])]
  have h3 : patternDate searchP3 [a,b,c,d] = none := rfl
  rw [h1, h2, h3]
  simp only [Option.none_orElse]
  unfold patternDate
  rw [searchP4_four_digits a b c d ha hb hc]
  by_cases hy : p4YearCond a b c d
  · rw [if_pos hy]
    dsimp only
    unfold runBody
    rw [if_neg (by simp), if_neg (by simp), if_pos (by simp)]
    unfold pyNat?
    simp only [List.headD_cons]
    rw [if_pos (isPyDigits_four a b c d ha hb hc hdd)]
    dsimp only
    by_cases hr : 1988 ≤ digitsVal [a,b,c,d] ∧ digitsVal [a,b,c,d] ≤ 2025
    · rw [if_pos hr, if_pos hr]
      unfold datetime?
      rw [if_pos ⟨by omega, digitsVal_four_le a b c d ha hb hc hdd, by omega, by omega,
        by omega, by rw [show daysInMonth (digitsVal [a,b,c,d]) 1 = 31 from rfl]; omega⟩]
    · rw [if_neg hr, if_neg hr]
  · rw [if_neg hy]
    rw [if_neg (by
      intro hr
      exact hy ((p4YearCond_iff_val a b c d ha hb hc hdd).mpr ⟨by omega, by omega⟩))]

/-! ## Machinery for C7: splitting the path -/

lemma splitSep_cons_sep (sep : Char) (t : List Char) :
    splitSep sep (sep :: t) = [] :: splitSep sep t := by
  simp only [splitSep]
  simp

lemma splitSep_cons_ne (sep c : Char) (t : List Char) (h : ¬ c = sep) :
    splitSep sep (c :: t) =
      match splitSep sep t with
      | [] => [[c]]
      | hh :: r => (c :: hh) :: r := by
  simp only [splitSep]
  rw [if_neg h]

lemma splitSep_no_sep_append (sep : Char) : ∀ (l r : List Char), (∀ c ∈ l, ¬ c = sep) →
    splitSep sep (l ++ sep :: r) = l :: splitSep sep r := by
  intro l
  induction l with
  | nil =>
    intro r _
    exact splitSep_cons_sep sep r
  | cons c t ih =>
    intro r hns
    have hc : ¬ c = sep := hns c (List.mem_cons_self c t)
    show splitSep sep (c :: (t ++ sep :: r)) = (c :: t) :: splitSep sep r
    rw [splitSep_cons_ne sep c _ hc, ih r (fun x hx => hns x (List.mem_cons_of_mem c hx))]

/-! ## C7 -/

/-- C7: on a path `/archive/XXXX/photo.jpg` whose third segment is any
four digit characters, `infer_date_from_path` resolves the 1st of January
of that year exactly when the year lies in the inclusive range
[1988, 2025], and resolves nothing otherwise; in particular
`/archive/1975/photo.jpg` yields no date and `/archive/1999/photo.jpg`
yields 1999-01-01. -/
theorem c7_bare_year_range (a b c d : Char)
    (ha : isDigitChar a = true) (hb : isDigitChar b = true)
    (hc : isDigitChar c = true) (hdd : isDigitChar d = true) :
    infer_date_from_path ("/archive/" ++ String.mk [a, b, c, d] ++ "/photo.jpg") =
      if 1988 ≤ digitsVal [a,b,c,d] ∧ digitsVal [a,b,c,d] ≤ 2025
      then some ⟨digitsVal [a,b,c,d], 1, 1⟩ else none := by
  unfold infer_date_from_path
  have hdata : ("/archive/" ++ String.mk [a, b, c, d] ++ "/photo.jpg").data
      = '/' :: ("archive".data ++ '/' :: ([a,b,c,d] ++ '/' :: "photo.jpg".data)) := by
    simp [String.data_append]
  have hnos : ∀ x ∈ [a,b,c,d], ¬ x = '/' := by
    intro x hx
    simp only [List.mem_cons, List.not_mem_nil, or_false] at hx
    rcases hx with rfl | rfl | rfl | rfl
    · exact digit_ne_slash ha
    · exact digit_ne_slash hb
    · exact digit_ne_slash hc
    · exact digit_ne_slash hdd
  rw [hdata, splitSep_cons_sep,
    splitSep_no_sep_append '/' "archive".data _ (by decide),
    splitSep_no_sep_append '/' [a,b,c,d] _ hnos,
    show splitSep '/' "photo.jpg".data = ["photo.jpg".data] from rfl]
  rw [List.findSome?_cons, show segmentDate [] = none from rfl]
  dsimp only
  rw [List.findSome?_cons, show segmentDate "archive".data = none from rfl]
  dsimp only
  rw [List.findSome?_cons, segmentDate_four_digits a b c d ha hb hc hdd]
  by_cases hr : 1988 ≤ digitsVal [a,b,c,d] ∧ digitsVal [a,b,c,d] ≤ 2025
  · rw [if_pos hr]
  · rw [if_neg hr]
    rfl

/-- Witness for C7 at the two concrete paths of the claim. -/
theorem c7_bare_year_range_witness :
    isDigitChar '1' = true ∧ isDigitChar '9' = true ∧ isDigitChar '7' = true ∧
    isDigitChar '5' = true ∧
    infer_date_from_path "/archive/1999/photo.jpg" = some ⟨1999, 1, 1⟩ ∧
    infer_date_from_path "/archive/1975/photo.jpg" = none := by
  refine ⟨rfl, rfl, rfl, rfl, ?_, ?_⟩
  · have h := c7_bare_year_range '1' '9' '9' '9' rfl rfl rfl rfl
    rw [show ("/archive/" ++ String.mk ['1','9','9','9'] ++ "/photo.jpg")
      = "/archive/1999/photo.jpg" from rfl] at h
    rw [h]
    decide
  · have h := c7_bare_year_range '1' '9' '7' '5' rfl rfl rfl rfl
    rw [show ("/archive/" ++ String.mk ['1','9','7','5'] ++ "/photo.jpg")
      = "/archive/1975/photo.jpg" from rfl] at h
    rw [h]
    decide

/-! ## C6 -/

/-- C6: every manifest entry carries a present capture date and a
destination of the shape
`output_root/year/zero-padded-month[/event-label]/basename(source)`; and a
non-duplicate image with no resolvable date is counted in `unknown_date`
while the manifest and the filesystem stay untouched. -/
theorem c6_manifest_invariant (o : String) (imgs : List Img) (fs0 : List String) :
    (∀ e ∈ (organise_photos o imgs fs0).photo_manifest, EntryShape o e) ∧
    (∀ (st : OrgState) (img : Img),
      (img.exifDate <|> infer_date_from_path img.path) = none → ¬ isDupStep st img →
      (process_image o st img).stats.unknown_date = st.stats.unknown_date + 1 ∧
      (process_image o st img).photo_manifest = st.photo_manifest ∧
      (process_image o st img).fs = st.fs) := by
  constructor
  · exact run_from_manifest_shape o imgs (init_state fs0)
      (fun e he => absurd he (List.not_mem_nil e))
  · intro st img hd hnd
    exact step_unknown_frame o st img hd hnd

/-- Witness for C6: the run over `eventImg` places exactly the entry
`out/1999/01/trip/a.jpg`, and the theorem yields its shape. -/
theorem c6_manifest_invariant_witness :
    eventEntry ∈ eventRun.photo_manifest ∧ EntryShape "out" eventEntry :=
  ⟨by decide,
   (c6_manifest_invariant "out" [eventImg] []).1 eventEntry (by decide)⟩

/-! ## C8 -/

/-- C8: `organise_photos` is idempotent on destination state: a second
run over the same images against the filesystem left by the first run
copies nothing, because every file placed by the first run is found at
its destination and skipped. -/
theorem c8_organise_idempotent (o : String) (imgs : List Img) (fs0 : List String) :
    (organise_photos o imgs (organise_photos o imgs fs0).fs).stats.copied = 0 := by
  unfold organise_photos
  exact run_from_copied_stable o imgs (init_state fs0)
    (init_state (run_from o (init_state fs0) imgs).fs) rfl (fun x hx => hx)

/-! ## C10 -/

/-- C10: an image whose destination already exists contributes no
manifest entry and changes no statistics counter other than
`total_files`, and leaves the filesystem untouched; consequently a rerun
over already-placed files rewrites `photo_index.json` as the empty
manifest, omitting those files. -/
theorem c10_skip_frame_and_rerun (o : String) (imgs : List Img) (fs0 : List String) :
    (∀ (st : OrgState) (img : Img) (d : PyDate),
      (img.exifDate <|> infer_date_from_path img.path) = some d → ¬ isDupStep st img →
      destination_of o img.path d ∈ st.fs →
      (process_image o st img).photo_manifest = st.photo_manifest ∧
      (process_image o st img).stats =
        { st.stats with total_files := st.stats.total_files + 1 } ∧
      (process_image o st img).fs = st.fs) ∧
    (organise_photos o imgs (organise_photos o imgs fs0).fs).photo_manifest = [] := by
  constructor
  · intro st img d hd hnd hfs
    exact step_skip_frame o st img d hd hnd hfs
  · have hstable := run_from_copied_stable o imgs (init_state fs0)
      (init_state (run_from o (init_state fs0) imgs).fs) rfl (fun x hx => hx)
    have hlen := run_from_manifest_copied o imgs
      (init_state (run_from o (init_state fs0) imgs).fs)
    unfold organise_photos
    rw [← List.length_eq_zero]
    simp only [init_state] at hstable hlen ⊢
    simp at hstable hlen
    omega

/-- Witness for C10 at a concrete input whose destination exists. -/
theorem c10_skip_frame_and_rerun_witness :
    (skipImg.exifDate <|> infer_date_from_path skipImg.path) = some ⟨1999, 1, 1⟩ ∧
    ¬ isDupStep (init_state ["out/1999/01/x.jpg"]) skipImg ∧
    destination_of "out" skipImg.path ⟨1999, 1, 1⟩ ∈ (init_state ["out/1999/01/x.jpg"]).fs ∧
    (process_image "out" (init_state ["out/1999/01/x.jpg"]) skipImg).photo_manifest =
      (init_state ["out/1999/01/x.jpg"]).photo_manifest :=
  ⟨by decide, by decide, by decide,
   ((c10_skip_frame_and_rerun "out" [] []).1 (init_state ["out/1999/01/x.jpg"]) skipImg
     ⟨1999, 1, 1⟩ (by decide) (by decide) (by decide)).1⟩

/-! ## Machinery for C9 -/

lemma sqDist_self (a : List ℚ) : sqDist a a = 0 := by
  induction a with
  | nil => rfl
  | cons x t ih =>
    unfold sqDist at ih ⊢
    simp [List.zipWith, ih]

lemma near_refl (tol : ℚ) (a : List ℚ) : near tol a a := by
  unfold near
  rw [sqDist_self]
  exact mul_self_nonneg tol

lemma sameCluster_perm (tol : ℚ) {pts pts2 : List (List ℚ)} (hp : pts.Perm pts2)
    (a b : List ℚ) : sameCluster tol pts a b → sameCluster tol pts2 a b := by
  intro h
  induction h with
  | refl => exact Relation.ReflTransGen.refl
  | tail hab hbc ih =>
    exact Relation.ReflTransGen.tail ih
      ⟨hp.mem_iff.mp hbc.1, hp.mem_iff.mp hbc.2.1, hbc.2.2⟩

lemma sameCluster_bridged (tol : ℚ) (pts : List (List ℚ)) (a b : List ℚ) :
    sameCluster tol pts a b → ∃ chain, BridgedBy tol pts a b chain := by
  intro h
  induction h with
  | refl =>
    exact ⟨[], fun p hp => absurd hp (List.not_mem_nil p),
      List.Chain.cons (near_refl tol a) List.Chain.nil⟩
  | @tail m c hab hbc ih =>
    obtain ⟨chain, hmem, hch⟩ := ih
    refine ⟨chain ++ [m], ?_, ?_⟩
    · intro p hp
      rcases List.mem_append.mp hp with h1 | h1
      · exact hmem p h1
      · rw [List.mem_singleton] at h1
        subst h1
        exact hbc.1
    · rw [List.append_assoc]
      exact List.chain_split.mpr ⟨hch, List.Chain.cons hbc.2.2 List.Chain.nil⟩

lemma sqDist_unit_lt_four : sqDist [(0:ℚ)] [1] < 2 * 2 := by
  rw [show sqDist [(0:ℚ)] [1] = 1 by simp [sqDist]]
  norm_num

/-! ## C9 -/

/-- C9: under the spec-modelled DBSCAN grouping with `min_samples = 1`,
two embeddings of one batch at Euclidean distance strictly below the
tolerance always land in the same cluster, in any input order; and two
embeddings at distance strictly above the tolerance with no chain of
batch points bridging them land in different clusters, in any input
order. -/
theorem c9_cluster_grouping (tol : ℚ) (pts pts2 : List (List ℚ)) (hperm : pts.Perm pts2)
    (x y : List ℚ) (hx : x ∈ pts) (hy : y ∈ pts) :
    (sqDist x y < tol * tol →
      sameCluster tol pts x y ∧ sameCluster tol pts2 x y) ∧
    (tol * tol < sqDist x y →
      (¬ ∃ chain, BridgedBy tol pts x y chain) →
      ¬ sameCluster tol pts x y ∧ ¬ sameCluster tol pts2 x y) := by
  constructor
  · intro hlt
    have h1 : sameCluster tol pts x y :=
      Relation.ReflTransGen.single ⟨hx, hy, le_of_lt hlt⟩
    exact ⟨h1, sameCluster_perm tol hperm x y h1⟩
  · intro _ hnc
    have h1 : ¬ sameCluster tol pts x y :=
      fun hsc => hnc (sameCluster_bridged tol pts x y hsc)
    exact ⟨h1, fun hsc2 => h1 (sameCluster_perm tol hperm.symm x y hsc2)⟩

/-- Witness for C9: two one-dimensional embeddings at squared distance 1,
below the squared tolerance 4, are clustered together. -/
theorem c9_cluster_grouping_witness :
    ([[(0:ℚ)], [1]] : List (List ℚ)).Perm [[(1:ℚ)], [0]] ∧
    ([(0:ℚ)] ∈ ([[(0:ℚ)], [1]] : List (List ℚ))) ∧
    ([(1:ℚ)] ∈ ([[(0:ℚ)], [1]] : List (List ℚ))) ∧
    sqDist [(0:ℚ)] [1] < 2 * 2 ∧
    sameCluster 2 [[(0:ℚ)], [1]] [0] [1] := by
  refine ⟨by decide, by decide, by decide, sqDist_unit_lt_four, ?_⟩
  exact ((c9_cluster_grouping 2 [[(0:ℚ)], [1]] [[(1:ℚ)], [0]] (by decide) [0] [1]
    (by decide) (by decide)).1 sqDist_unit_lt_four).1

end PhotoOrganiser
